import Mathlib

/-!
Shallow embedding of `src/business_filter.py`.

Python strings are modelled as Lean `String` (a structure holding a
`List Char`); the ASCII fragments of Python's `str.lower`, `str.upper`,
`str.title`, `str.isupper`, `str.strip` and of the regexes
`["\']`, `\s+`, `[^\w\s]` are modelled character by character on code
points.  Dirty cell values (`None`/`NaN`, i.e. non-`str` input) are
modelled with `Option`.  `pandas` dataframes are modelled as a list of
records plus flags recording which columns exist; a missing column is a
`KeyError`, `pd.concat` of an empty list of parts is a `ValueError`,
both surfaced through `Except`.
-/

/-! ### Character-level model (ASCII fragment of Python's str methods) -/

/-- Code-point version of ASCII lowercasing: `str.lower` maps A-Z (65-90) to a-z. -/
def lowerNat (n : Nat) : Nat := if 65 ≤ n ∧ n ≤ 90 then n + 32 else n

/-- Code-point version of ASCII uppercasing: `str.upper` maps a-z (97-122) to A-Z. -/
def upperNat (n : Nat) : Nat := if 97 ≤ n ∧ n ≤ 122 then n - 32 else n

/-- `str.lower` on one character (ASCII fragment). -/
def charLower (c : Char) : Char :=
  if 65 ≤ c.toNat ∧ c.toNat ≤ 90 then Char.ofNat (c.toNat + 32) else c

/-- `str.upper` on one character (ASCII fragment). -/
def charUpper (c : Char) : Char :=
  if 97 ≤ c.toNat ∧ c.toNat ≤ 122 then Char.ofNat (c.toNat - 32) else c

/-- Python `\s` (ASCII fragment): space, tab, newline, carriage return, form feed, vertical tab. -/
def isPySpace (c : Char) : Bool :=
  decide (c.toNat = 32 ∨ c.toNat = 9 ∨ c.toNat = 10 ∨ c.toNat = 13 ∨ c.toNat = 12 ∨ c.toNat = 11)

/-- ASCII letter (the cased characters of the ASCII fragment). -/
def isAlphaCh (c : Char) : Bool :=
  decide ((65 ≤ c.toNat ∧ c.toNat ≤ 90) ∨ (97 ≤ c.toNat ∧ c.toNat ≤ 122))

/-- ASCII lowercase letter. -/
def isLowerCh (c : Char) : Bool := decide (97 ≤ c.toNat ∧ c.toNat ≤ 122)

/-- The characters removed by `re.sub(r'["\']', '', name)`: `"` (34) and `'` (39). -/
def isQuoteCh (c : Char) : Bool := decide (c.toNat = 34 ∨ c.toNat = 39)

/-- Python `\w` (ASCII fragment): letters, digits and underscore (95). -/
def isWordCh (c : Char) : Bool :=
  isAlphaCh c || decide (48 ≤ c.toNat ∧ c.toNat ≤ 57) || decide (c.toNat = 95)

/-! ### List-of-characters utilities shared by the string transforms -/

/-- Does the second list start with the first one? -/
def startsWithL : List Char → List Char → Bool
  | [], _ => true
  | _ :: _, [] => false
  | a :: as, b :: bs => (a == b) && startsWithL as bs

/-- Python's substring test `needle in hay`. -/
def containsL (needle : List Char) : List Char → Bool
  | [] => needle.isEmpty
  | c :: rest => startsWithL needle (c :: rest) || containsL needle rest

/-- Python's `hay.endswith(s)`. -/
def endsWithL (l s : List Char) : Bool :=
  decide (s.length ≤ l.length) && (l.drop (l.length - s.length) == s)

/-- `name[:-len(s)] if name.endswith(s) else name` for a nonempty suffix `s`. -/
def stripOne (l s : List Char) : List Char :=
  if endsWithL l s then l.take (l.length - s.length) else l

/-- The suffix-stripping loop `for suffix in [...]: if name.endswith(suffix): name = name[:-len(suffix)]`. -/
def stripSuffixesL : List (List Char) → List Char → List Char
  | [], l => l
  | s :: rest, l => stripSuffixesL rest (stripOne l s)

/-- `re.sub(r'\s+', ' ', name)`: collapse every run of whitespace to one space. -/
def collapseWSL : List Char → List Char
  | [] => []
  | [c] => if isPySpace c then [' '] else [c]
  | c1 :: c2 :: cs =>
    if isPySpace c1 && isPySpace c2 then collapseWSL (c2 :: cs)
    else (if isPySpace c1 then ' ' else c1) :: collapseWSL (c2 :: cs)

/-- Remove trailing whitespace (the right half of Python's `str.strip`). -/
def dropTrailWS : List Char → List Char
  | [] => []
  | c :: cs =>
    match dropTrailWS cs with
    | [] => if isPySpace c then [] else [c]
    | r => c :: r

/-- Python's `str.strip()` (ASCII whitespace fragment). -/
def stripL (l : List Char) : List Char := dropTrailWS (l.dropWhile isPySpace)

/-- One pass of Python's `str.title` (ASCII fragment).  The flag records
whether the previous character was cased; a cased character after a cased
one is lowercased, after a non-cased one it is uppercased (titlecased). -/
def titleAux : Bool → List Char → List Char
  | _, [] => []
  | prevCased, c :: cs =>
    if isAlphaCh c then
      (if prevCased then charLower c else charUpper c) :: titleAux true cs
    else c :: titleAux false cs

/-- Python's `name.title()` (ASCII fragment). -/
def titleL (l : List Char) : List Char := titleAux false l

/-- Python's `name.isupper()` (ASCII fragment): at least one cased character
and no lowercase cased character. -/
def isUpperL (l : List Char) : Bool := l.any isAlphaCh && !(l.any isLowerCh)

/-- `re.sub(r'["\']', '', name)`: remove single/double quote characters. -/
def removeQuotesL (l : List Char) : List Char := l.filter (fun c => !isQuoteCh c)

/-- The quote-removal / whitespace-collapse / strip part of `clean_name`. -/
def preClean (l : List Char) : List Char := stripL (collapseWSL (removeQuotesL l))

/-- Body of `clean_name` on an actual string. -/
def cleanNameL (l : List Char) : List Char :=
  let s := preClean l
  if isUpperL s then s else titleL s

/-- `clean_name(name)`: `None` for non-`str` input, otherwise quote removal,
whitespace normalization, strip, and title case unless already uppercase. -/
def clean_name (name : Option String) : Option String :=
  match name with
  | none => none
  | some s => some (String.mk (cleanNameL s.data))

/-- `name.lower()` (ASCII fragment). -/
def pyLower (s : String) : String := String.mk (s.data.map charLower)

/-- `name.upper()` (ASCII fragment). -/
def pyUpper (s : String) : String := String.mk (s.data.map charUpper)

/-! ### Keyword lists (module-level data of `business_filter.py`) -/

/-- `TRUCK_KEYWORDS`: inclusion keywords. -/
def TRUCK_KEYWORDS : List String :=
  ["truck", "trucks", "trucking", "trailer", "trailers",
   "freight", "logistics", "transport", "transportation", "ltl",
   "hauling", "haul", "excavation", "excavating",
   "construction", "grading", "sitework", "aggregates",
   "paving", "asphalt", "concrete",
   "diesel", "repair", "tow", "towing", "tows",
   "equipment", "rental"]

/-- `EXCLUDE_KEYWORDS`: exclusion keywords. -/
def EXCLUDE_KEYWORDS : List String :=
  ["accessories", "apartment", "bank", "budget", "car", "care", "cellphone", "cellphones",
   "cleaners", "cleaning", "furniture", "homes", "home", "hospital", "ice",
   "jewelry", "luxury", "mattress", "moving", "party", "phone", "phones", "piano",
   "pianos", "plumber", "restaurant", "rug", "rugs", "rv", "salon", "school",
   "shoe", "shoes", "storage", "vacation", "watch", "watches",
   "eyeglass", "eyeglasses", "woodwind", "woodwinds",
   "advance", "auto", "autozone", "automotive", "body", "collision", "computer",
   "detailing", "firestone", "ford", "glass", "mazda", "medical", "motor", "motors",
   "napa", "oreilly", "penske", "shop", "tire", "tools", "toyota", "wash",
   "church", "city of", "county", "department", "park", "town", "town of", "township",
   "tower", "towne",
   "consultants", "credit", "dream", "electrician", "emissions", "event", "handyman",
   "hvac", "pc", "training", "wireless",
   "fedex", "harbor", "saia"]

/-- `is_truck_relevant(name)`: `False` on non-`str` or empty input; `False` if
any exclusion keyword is a substring of the lowercased name; otherwise `True`
iff some inclusion keyword is a substring. -/
def is_truck_relevant (name : Option String) : Bool :=
  match name with
  | none => false
  | some s =>
    if s.data.isEmpty then false
    else
      let low := (pyLower s).data
      if EXCLUDE_KEYWORDS.any (fun k => containsL k.data low) then false
      else TRUCK_KEYWORDS.any (fun k => containsL k.data low)

/-! ### `normalize_for_matching` -/

/-- The suffix list `[' llc', ' inc', ' corp', ' ltd', ' co']`, as character lists. -/
def SUFFIXES_DATA : List (List Char) :=
  [" llc".data, " inc".data, " corp".data, " ltd".data, " co".data]

/-- `normalize_for_matching(name)`: empty text on falsy input; otherwise
lowercase+strip, run the suffix-stripping loop, replace every character that
is neither a word character nor whitespace with a space, collapse whitespace
and strip. -/
def normalize_for_matching (name : Option String) : String :=
  match name with
  | none => ""
  | some s =>
    if s.data.isEmpty then ""
    else
      let t1 := stripL ((pyLower s).data)
      let t2 := stripSuffixesL SUFFIXES_DATA t1
      let t3 := stripL (collapseWSL (t2.map (fun c => if isWordCh c || isPySpace c then c else ' ')))
      String.mk t3

/-! ### Data model and chunked pipeline -/

deriving instance DecidableEq for Except

/-- One entry of a record's `addresses` list; only `country` is inspected. -/
structure Address where
  country : String
deriving DecidableEq

/-- A row of the dataframe.  `business_name` and `addresses` cells can hold
non-`str` / `None` values (modelled by `none`); `confidence` is a number. -/
structure Record where
  business_name : Option String
  confidence : Rat
  addresses : Option (List Address)
deriving DecidableEq

/-- A pandas dataframe: which columns exist, and the rows in order. -/
structure DataFrame where
  hasBusinessName : Bool
  hasConfidence : Bool
  hasAddresses : Bool
  rows : List Record
deriving DecidableEq

/-- `CONFIDENCE_THRESHOLD = 0.9`, i.e. `9/10`, written in lowest terms so
that comparisons against it evaluate by kernel reduction (the lemma
`CONFIDENCE_THRESHOLD_eq` below identifies it with `9 / 10`). -/
def CONFIDENCE_THRESHOLD : Rat := ⟨9, 10, by decide, by decide⟩

/-- `0.95`, a sample confidence in lowest terms. -/
def conf095 : Rat := ⟨19, 20, by decide, by decide⟩

/-- `0.5`, a sample confidence in lowest terms. -/
def conf050 : Rat := ⟨1, 2, by decide, by decide⟩

/-- The confidence-stage predicate `df["confidence"] >= CONFIDENCE_THRESHOLD`. -/
def confPred (r : Record) : Bool := decide (CONFIDENCE_THRESHOLD ≤ r.confidence)

/-- The country-stage cell test `lambda x: x[0]["country"] == "US" if x else True`
(`None` and the empty list are falsy in Python). -/
def passes_country (x : Option (List Address)) : Bool :=
  match x with
  | none => true
  | some [] => true
  | some (a :: _) => a.country == "US"

/-- Concatenation of a list of lists (reassembling chunk parts in order). -/
def concatAll : List (List α) → List α
  | [] => []
  | l :: ls => l ++ concatAll ls

/-- The chunk slices produced by `for start in range(0, len(l), csize):
chunk = l[start:start+csize]`, with fuel bounding the recursion (any
`fuel ≥ l.length` gives all slices when `csize > 0`). -/
def chunksOfAux (csize : Nat) : Nat → List α → List (List α)
  | 0, _ => []
  | _, [] => []
  | fuel + 1, l => l.take csize :: chunksOfAux csize fuel (l.drop csize)

/-- All chunk slices of a list. -/
def chunksOf (csize : Nat) (l : List α) : List (List α) := chunksOfAux csize l.length l

/-- `pd.concat(parts)`: raises `ValueError` when `parts` is empty. -/
def concatNonempty (parts : List (List α)) : Except String (List α) :=
  if parts.isEmpty then Except.error "ValueError: No objects to concatenate"
  else Except.ok (concatAll parts)

/-- Boolean-mask row selection `df[mask]`. -/
def applyMask : List α → List Bool → List α
  | [], _ => []
  | _, [] => []
  | a :: as, b :: bs => if b then a :: applyMask as bs else applyMask as bs

/-- A chunked boolean-mask filter stage: per-chunk masks, concatenated, then
applied; `range` rejects a zero step, `pd.concat` rejects an empty part list. -/
def chunkedFilter (csize : Nat) (p : α → Bool) (rows : List α) : Except String (List α) :=
  if csize = 0 then Except.error "ValueError: range() arg 3 must not be zero"
  else
    match concatNonempty ((chunksOf csize rows).map (List.map p)) with
    | Except.error e => Except.error e
    | Except.ok mask => Except.ok (applyMask rows mask)

/-- A chunked per-row map stage: per-chunk transforms, concatenated. -/
def chunkedMap (csize : Nat) (f : α → α) (rows : List α) : Except String (List α) :=
  if csize = 0 then Except.error "ValueError: range() arg 3 must not be zero"
  else concatNonempty ((chunksOf csize rows).map (List.map f))

/-- The relevance stage: chunked `is_truck_relevant` over `business_name`. -/
def relevance_stage (csize : Nat) (rows : List Record) : Except String (List Record) :=
  chunkedFilter csize (fun r => is_truck_relevant r.business_name) rows

/-- The country stage: chunked first-address country test over `addresses`. -/
def country_stage (csize : Nat) (rows : List Record) : Except String (List Record) :=
  chunkedFilter csize (fun r => passes_country r.addresses) rows

/-- `chunk["business_name"] = chunk["business_name"].apply(clean_name)` on one row. -/
def cleanRecord (r : Record) : Record := { r with business_name := clean_name r.business_name }

/-- The name-cleaning stage: chunked `clean_name` over `business_name`. -/
def cleaning_stage (csize : Nat) (rows : List Record) : Except String (List Record) :=
  chunkedMap csize cleanRecord rows

/-- The final drop `df["business_name"].notna() & (df["business_name"] != "")`. -/
def keepName (r : Record) : Bool :=
  !(r.business_name == none) && !(r.business_name == some "")

/-- `filter_truck_businesses(df)`: confidence filter over the whole
dataframe, chunked relevance filter (chunk size 10000), then — only if the
`addresses` column exists and rows remain — chunked country filter (chunk
size 5000).  Reading a missing column raises `KeyError` (the chunk loops
read `business_name` only when at least one chunk exists). -/
def filter_truck_businesses (df : DataFrame) : Except String DataFrame :=
  if !df.hasConfidence then Except.error "KeyError: confidence"
  else
    let rows1 := df.rows.filter confPred
    if !rows1.isEmpty && !df.hasBusinessName then Except.error "KeyError: business_name"
    else
      match relevance_stage 10000 rows1 with
      | Except.error e => Except.error e
      | Except.ok rows2 =>
        if df.hasAddresses && !rows2.isEmpty then
          match country_stage 5000 rows2 with
          | Except.error e => Except.error e
          | Except.ok rows3 => Except.ok { df with rows := rows3 }
        else Except.ok { df with rows := rows2 }

/-- `clean_business_names(df)`: chunked `clean_name` map (chunk size 10000),
reassembled with `ignore_index=True`, then drop rows with absent or empty
`business_name`. -/
def clean_business_names (df : DataFrame) : Except String DataFrame :=
  if !df.rows.isEmpty && !df.hasBusinessName then Except.error "KeyError: business_name"
  else
    match cleaning_stage 10000 df.rows with
    | Except.error e => Except.error e
    | Except.ok rows2 => Except.ok { df with rows := rows2.filter keepName }

/-! ### Normal-form predicates for cleaned strings -/

/-- No two adjacent `true` entries (applied to whitespace masks). -/
def noAdjTrue : List Bool → Bool
  | [] => true
  | [_] => true
  | b1 :: b2 :: bs => !(b1 && b2) && noAdjTrue (b2 :: bs)

/-- First entry is not `true` (applied to whitespace masks). -/
def headNotTrue : List Bool → Bool
  | [] => true
  | b :: _ => !b

/-- Last entry is not `true` (applied to whitespace masks). -/
def lastNotTrue : List Bool → Bool
  | [] => true
  | [b] => !b
  | _ :: b2 :: bs => lastNotTrue (b2 :: bs)

/-- Invariant of the quote-removal / whitespace-collapse / strip pass of
`clean_name`: no quote characters, every whitespace character is a plain
space, and no leading, trailing or doubled whitespace. -/
def cleanNF (z : List Char) : Bool :=
  z.all (fun c => !isQuoteCh c && (!isPySpace c || c == ' ')) &&
  noAdjTrue (z.map isPySpace) &&
  headNotTrue (z.map isPySpace) &&
  lastNotTrue (z.map isPySpace)

/-! ### Character-level lemmas -/

/-- `Char.ofNat` of a valid code point has that code point. -/
theorem toNat_ofNat_of_valid {n : Nat} (h : n.isValidChar) : (Char.ofNat n).toNat = n := by
  simp [Char.ofNat, h, Char.ofNatAux, Char.toNat, UInt32.toNat, BitVec.toNat_ofNatLt]

/-- `charLower` acts as `lowerNat` on code points. -/
theorem toNat_charLower (c : Char) : (charLower c).toNat = lowerNat c.toNat := by
  unfold charLower lowerNat
  split
  case isTrue h => exact toNat_ofNat_of_valid (Or.inl (by omega))
  case isFalse h => rfl

/-- `charUpper` acts as `upperNat` on code points. -/
theorem toNat_charUpper (c : Char) : (charUpper c).toNat = upperNat c.toNat := by
  unfold charUpper upperNat
  split
  case isTrue h => exact toNat_ofNat_of_valid (Or.inl (by omega))
  case isFalse h => rfl

/-- Lowercasing after uppercasing is plain lowercasing. -/
theorem charLower_charUpper (c : Char) : charLower (charUpper c) = charLower c := by
  unfold charUpper
  split
  case isTrue h =>
    unfold charLower
    rw [toNat_ofNat_of_valid (Or.inl (by omega))]
    rw [if_pos (by omega), if_neg (by omega)]
    have h32 : c.toNat - 32 + 32 = c.toNat := by omega
    rw [h32, Char.ofNat_toNat]
  case isFalse h => rfl

/-- The positive branch of `charLower`. -/
theorem charLower_eq_pos {c : Char} (h : 65 ≤ c.toNat ∧ c.toNat ≤ 90) :
    charLower c = Char.ofNat (c.toNat + 32) := by
  unfold charLower
  exact if_pos h

/-- The negative branch of `charLower`. -/
theorem charLower_eq_neg {c : Char} (h : ¬(65 ≤ c.toNat ∧ c.toNat ≤ 90)) :
    charLower c = c := by
  unfold charLower
  exact if_neg h

/-- The positive branch of `charUpper`. -/
theorem charUpper_eq_pos {c : Char} (h : 97 ≤ c.toNat ∧ c.toNat ≤ 122) :
    charUpper c = Char.ofNat (c.toNat - 32) := by
  unfold charUpper
  exact if_pos h

/-- The negative branch of `charUpper`. -/
theorem charUpper_eq_neg {c : Char} (h : ¬(97 ≤ c.toNat ∧ c.toNat ≤ 122)) :
    charUpper c = c := by
  unfold charUpper
  exact if_neg h

/-- `charLower` is idempotent. -/
theorem charLower_charLower (c : Char) : charLower (charLower c) = charLower c := by
  by_cases h : 65 ≤ c.toNat ∧ c.toNat ≤ 90
  · rw [charLower_eq_pos h]
    apply charLower_eq_neg
    rw [toNat_ofNat_of_valid (Or.inl (by omega))]
    omega
  · rw [charLower_eq_neg h, charLower_eq_neg h]

/-- `charUpper` is idempotent. -/
theorem charUpper_charUpper (c : Char) : charUpper (charUpper c) = charUpper c := by
  by_cases h : 97 ≤ c.toNat ∧ c.toNat ≤ 122
  · rw [charUpper_eq_pos h]
    apply charUpper_eq_neg
    rw [toNat_ofNat_of_valid (Or.inl (by omega))]
    omega
  · rw [charUpper_eq_neg h, charUpper_eq_neg h]

/-- Case mapping preserves letter-ness. -/
theorem isAlphaCh_charLower (c : Char) : isAlphaCh (charLower c) = isAlphaCh c := by
  simp only [isAlphaCh, toNat_charLower, lowerNat]
  rw [decide_eq_decide]
  split <;> omega

/-- Case mapping preserves letter-ness. -/
theorem isAlphaCh_charUpper (c : Char) : isAlphaCh (charUpper c) = isAlphaCh c := by
  simp only [isAlphaCh, toNat_charUpper, upperNat]
  rw [decide_eq_decide]
  split <;> omega

/-- Case mapping preserves whitespace-ness. -/
theorem isPySpace_charLower (c : Char) : isPySpace (charLower c) = isPySpace c := by
  simp only [isPySpace, toNat_charLower, lowerNat]
  rw [decide_eq_decide]
  split <;> omega

/-- Case mapping preserves whitespace-ness. -/
theorem isPySpace_charUpper (c : Char) : isPySpace (charUpper c) = isPySpace c := by
  simp only [isPySpace, toNat_charUpper, upperNat]
  rw [decide_eq_decide]
  split <;> omega

/-- A letter is not a quote character. -/
theorem isQuoteCh_false_of_alpha {c : Char} (h : isAlphaCh c = true) : isQuoteCh c = false := by
  simp only [isAlphaCh, decide_eq_true_eq] at h
  simp only [isQuoteCh, decide_eq_false_iff_not]
  omega

/-- A letter is not whitespace. -/
theorem isPySpace_false_of_alpha {c : Char} (h : isAlphaCh c = true) : isPySpace c = false := by
  simp only [isAlphaCh, decide_eq_true_eq] at h
  simp only [isPySpace, decide_eq_false_iff_not]
  omega

/-! ### Lemmas about `is_truck_relevant` (claims C1 and C9) -/

/-- C1: for every string name in which some exclusion keyword occurs as a
substring of the lowercased name, `is_truck_relevant` returns `false`,
regardless of how many inclusion keywords also occur as substrings; only
when no exclusion keyword matches does an inclusion-keyword match make it
return `true`. -/
theorem is_truck_relevant_exclusion_precedence (s : String) :
    (EXCLUDE_KEYWORDS.any (fun k => containsL k.data (pyLower s).data) = true →
      is_truck_relevant (some s) = false) ∧
    (EXCLUDE_KEYWORDS.any (fun k => containsL k.data (pyLower s).data) = false →
      is_truck_relevant (some s) =
        (!s.data.isEmpty && TRUCK_KEYWORDS.any (fun k => containsL k.data (pyLower s).data))) := by
  unfold is_truck_relevant
  constructor
  · intro h
    by_cases he : s.data.isEmpty
    · simp [he]
    · simp [he, h]
  · intro h
    by_cases he : s.data.isEmpty
    · simp [he]
    · simp [he, h]

/-- Witness for C1 at concrete inputs: "Joe Auto Repair" matches the
exclusion keyword "auto" (and the inclusion keyword "repair"), and
"Smith Freight" matches no exclusion keyword. -/
theorem is_truck_relevant_exclusion_precedence_witness :
    is_truck_relevant (some "Joe Auto Repair") = false ∧
    is_truck_relevant (some "Smith Freight") =
      (!(String.data "Smith Freight").isEmpty &&
        TRUCK_KEYWORDS.any (fun k => containsL k.data (pyLower "Smith Freight").data)) :=
  ⟨(is_truck_relevant_exclusion_precedence "Joe Auto Repair").1 (by decide),
   (is_truck_relevant_exclusion_precedence "Smith Freight").2 (by decide)⟩

/-- Mapping `charLower` after `charUpper` over a list is mapping `charLower`. -/
theorem map_charLower_map_charUpper (l : List Char) :
    (l.map charUpper).map charLower = l.map charLower := by
  rw [List.map_map]
  have h : charLower ∘ charUpper = charLower := funext charLower_charUpper
  rw [h]

/-- Mapping `charLower` twice over a list is mapping it once. -/
theorem map_charLower_map_charLower (l : List Char) :
    (l.map charLower).map charLower = l.map charLower := by
  rw [List.map_map]
  have h : charLower ∘ charLower = charLower := funext charLower_charLower
  rw [h]

/-- Mapping preserves emptiness. -/
theorem isEmpty_map (f : Char → Char) (l : List Char) : (l.map f).isEmpty = l.isEmpty := by
  cases l <;> rfl

/-- C9: `is_truck_relevant` is case-insensitive: it gives the same result
on a string, its uppercased form and its lowercased form. -/
theorem is_truck_relevant_case_insensitive (s : String) :
    is_truck_relevant (some (pyUpper s)) = is_truck_relevant (some s) ∧
    is_truck_relevant (some (pyLower s)) = is_truck_relevant (some s) := by
  unfold is_truck_relevant
  simp only [pyLower, pyUpper]
  rw [map_charLower_map_charUpper, map_charLower_map_charLower,
    isEmpty_map charUpper, isEmpty_map charLower]
  exact ⟨rfl, rfl⟩

/-! ### Chunking lemmas (claim C2 and the pipeline stages) -/

/-- Reassembling all chunk slices in order gives back the list (for a
positive chunk size and enough fuel). -/
theorem concatAll_chunksOfAux {csize : Nat} (hc : 0 < csize) :
    ∀ (fuel : Nat) (l : List α), l.length ≤ fuel →
      concatAll (chunksOfAux csize fuel l) = l := by
  intro fuel
  induction fuel with
  | zero =>
    intro l hl
    have : l = [] := List.eq_nil_of_length_eq_zero (Nat.le_zero.mp hl)
    subst this
    rfl
  | succ fuel ih =>
    intro l hl
    cases l with
    | nil => rfl
    | cons a as =>
      show concatAll ((a :: as).take csize :: chunksOfAux csize fuel ((a :: as).drop csize)) = a :: as
      show (a :: as).take csize ++ concatAll (chunksOfAux csize fuel ((a :: as).drop csize)) = a :: as
      rw [ih ((a :: as).drop csize)
        (by simp only [List.length_drop, List.length_cons] at hl ⊢; omega)]
      exact List.take_append_drop csize (a :: as)

/-- Reassembling all chunk slices gives back the list. -/
theorem concatAll_chunksOf {csize : Nat} (hc : 0 < csize) (l : List α) :
    concatAll (chunksOf csize l) = l :=
  concatAll_chunksOfAux hc l.length l (Nat.le_refl _)

/-- Mapping per chunk and reassembling is mapping over the reassembly. -/
theorem concatAll_map_map (p : α → β) :
    ∀ (L : List (List α)), concatAll (L.map (List.map p)) = List.map p (concatAll L) := by
  intro L
  induction L with
  | nil => rfl
  | cons l ls ih =>
    show List.map p l ++ concatAll (ls.map (List.map p)) = List.map p (l ++ concatAll ls)
    rw [ih, List.map_append]

/-- Selecting with the mask `l.map p` is filtering with `p`. -/
theorem applyMask_map (p : α → Bool) :
    ∀ (l : List α), applyMask l (l.map p) = l.filter p := by
  intro l
  induction l with
  | nil => rfl
  | cons a as ih =>
    show (if p a then a :: applyMask as (as.map p) else applyMask as (as.map p)) = List.filter p (a :: as)
    rw [ih, List.filter_cons]

/-- A nonempty list has at least one chunk slice. -/
theorem chunksOf_ne_nil {csize : Nat} (a : α) (as : List α) :
    chunksOf csize (a :: as) ≠ [] := by
  show chunksOfAux csize (a :: as).length (a :: as) ≠ []
  rw [List.length_cons]
  intro h
  rw [show chunksOfAux csize (as.length + 1) (a :: as) =
      (a :: as).take csize :: chunksOfAux csize as.length ((a :: as).drop csize) from rfl] at h
  exact List.cons_ne_nil _ _ h

/-- On a nonempty input and positive chunk size, a chunked boolean-mask
filter stage equals the non-chunked filter. -/
theorem chunkedFilter_ok {csize : Nat} (hc : 0 < csize) (p : α → Bool)
    (a : α) (as : List α) :
    chunkedFilter csize p (a :: as) = Except.ok ((a :: as).filter p) := by
  unfold chunkedFilter
  rw [if_neg (Nat.pos_iff_ne_zero.mp hc)]
  have hne : (chunksOf csize (a :: as)).map (List.map p) ≠ [] := by
    intro h
    exact chunksOf_ne_nil a as (List.map_eq_nil_iff.mp h)
  unfold concatNonempty
  rw [if_neg (by simpa [List.isEmpty_iff] using hne)]
  rw [concatAll_map_map, concatAll_chunksOf hc]
  show Except.ok (applyMask (a :: as) (List.map p (a :: as))) = Except.ok ((a :: as).filter p)
  rw [applyMask_map]

/-- On the empty input, the chunked filter stage raises the
`pd.concat`-of-nothing error for every positive chunk size. -/
theorem chunkedFilter_nil {csize : Nat} (hc : 0 < csize) (p : α → Bool) :
    chunkedFilter csize p ([] : List α) =
      Except.error "ValueError: No objects to concatenate" := by
  unfold chunkedFilter
  rw [if_neg (Nat.pos_iff_ne_zero.mp hc)]
  rfl

/-- On a nonempty input and positive chunk size, a chunked map stage equals
the non-chunked map. -/
theorem chunkedMap_ok {csize : Nat} (hc : 0 < csize) (f : α → α)
    (a : α) (as : List α) :
    chunkedMap csize f (a :: as) = Except.ok ((a :: as).map f) := by
  unfold chunkedMap
  rw [if_neg (Nat.pos_iff_ne_zero.mp hc)]
  have hne : (chunksOf csize (a :: as)).map (List.map f) ≠ [] := by
    intro h
    exact chunksOf_ne_nil a as (List.map_eq_nil_iff.mp h)
  unfold concatNonempty
  rw [if_neg (by simpa [List.isEmpty_iff] using hne)]
  rw [concatAll_map_map, concatAll_chunksOf hc]

/-- On the empty input, the chunked map stage raises the
`pd.concat`-of-nothing error for every positive chunk size. -/
theorem chunkedMap_nil {csize : Nat} (hc : 0 < csize) (f : α → α) :
    chunkedMap csize f ([] : List α) =
      Except.error "ValueError: No objects to concatenate" := by
  unfold chunkedMap
  rw [if_neg (Nat.pos_iff_ne_zero.mp hc)]
  rfl

/-- C2 counterexample: on the empty dataset the chunked relevance stage
raises (for chunk size 1, and indeed any chunk size) because `pd.concat`
refuses an empty list of mask parts, while a single non-chunked pass over
the whole dataset returns the empty result; so the chunked stage does not
produce the same output as the non-chunked pass for every dataset. -/
theorem chunked_stage_differs_from_non_chunked_on_empty :
    relevance_stage 1 ([] : List Record) = Except.error "ValueError: No objects to concatenate" ∧
    ([] : List Record).filter (fun r => is_truck_relevant r.business_name) = [] ∧
    relevance_stage 1 ([] : List Record) ≠
      Except.ok (([] : List Record).filter (fun r => is_truck_relevant r.business_name)) :=
  ⟨by decide, by decide, by decide⟩

/-- C2 amended: for every positive chunk size, on a nonempty input the
chunked relevance, country and name-cleaning stages return exactly the
single non-chunked pass over the whole input (so the result never depends
on the chunk size), while on the empty input all three chunked stages raise
the `pd.concat`-of-nothing error instead of returning the empty result. -/
theorem chunked_stages_match_non_chunked (csize : Nat) (rows : List Record) (hc : 0 < csize) :
    (rows ≠ [] →
      relevance_stage csize rows =
        Except.ok (rows.filter (fun r => is_truck_relevant r.business_name)) ∧
      country_stage csize rows =
        Except.ok (rows.filter (fun r => passes_country r.addresses)) ∧
      cleaning_stage csize rows = Except.ok (rows.map cleanRecord)) ∧
    (relevance_stage csize ([] : List Record) =
        Except.error "ValueError: No objects to concatenate" ∧
      country_stage csize ([] : List Record) =
        Except.error "ValueError: No objects to concatenate" ∧
      cleaning_stage csize ([] : List Record) =
        Except.error "ValueError: No objects to concatenate") := by
  constructor
  · intro hne
    match rows, hne with
    | a :: as, _ =>
      exact ⟨chunkedFilter_ok hc _ a as, chunkedFilter_ok hc _ a as, chunkedMap_ok hc _ a as⟩
  · exact ⟨chunkedFilter_nil hc _, chunkedFilter_nil hc _, chunkedMap_nil hc _⟩

/-- Witness for the amended C2 at chunk size 1 and a concrete one-record input. -/
theorem chunked_stages_match_non_chunked_witness :
    relevance_stage 1 [({business_name := some "ABC Trucking", confidence := conf095, addresses := none} : Record)] =
      Except.ok ([({business_name := some "ABC Trucking", confidence := conf095, addresses := none} : Record)].filter
        (fun r => is_truck_relevant r.business_name)) ∧
    country_stage 1 [({business_name := some "ABC Trucking", confidence := conf095, addresses := none} : Record)] =
      Except.ok ([({business_name := some "ABC Trucking", confidence := conf095, addresses := none} : Record)].filter
        (fun r => passes_country r.addresses)) ∧
    cleaning_stage 1 [({business_name := some "ABC Trucking", confidence := conf095, addresses := none} : Record)] =
      Except.ok ([({business_name := some "ABC Trucking", confidence := conf095, addresses := none} : Record)].map cleanRecord) :=
  (chunked_stages_match_non_chunked 1
    [({business_name := some "ABC Trucking", confidence := conf095, addresses := none} : Record)]
    (by decide)).1 (by decide)

/-- Characterization of a successful `filter_truck_businesses` run: the
surviving rows are the confidence-then-relevance filter of the input,
optionally followed by the country filter. -/
theorem filter_truck_businesses_ok_rows {df out : DataFrame} :
    filter_truck_businesses df = Except.ok out →
    out.rows =
        (df.rows.filter confPred).filter (fun r => is_truck_relevant r.business_name) ∨
      out.rows =
        ((df.rows.filter confPred).filter (fun r => is_truck_relevant r.business_name)).filter
          (fun r => passes_country r.addresses) := by
  intro h
  simp only [filter_truck_businesses] at h
  split at h
  · exact absurd h (by simp)
  · split at h
    · exact absurd h (by simp)
    · split at h
      case h_1 e heq => exact absurd h (by simp)
      case h_2 rows2 heq =>
        cases hr1 : df.rows.filter confPred with
        | nil =>
          rw [hr1] at heq
          unfold relevance_stage at heq
          rw [chunkedFilter_nil (by decide)] at heq
          exact absurd heq (by simp)
        | cons a as =>
          rw [hr1] at heq
          unfold relevance_stage at heq
          rw [chunkedFilter_ok (by decide)] at heq
          injection heq with heq
          subst heq
          split at h
          case isTrue hguard =>
            split at h
            case h_1 e heq3 => exact absurd h (by simp)
            case h_2 rows3 heq3 =>
              have hne2 : (a :: as).filter (fun r => is_truck_relevant r.business_name) ≠ [] := by
                intro hnil
                rw [hnil] at hguard
                simp at hguard
              cases hr2 : (a :: as).filter (fun r => is_truck_relevant r.business_name) with
              | nil => exact absurd hr2 hne2
              | cons b bs =>
                rw [hr2] at heq3
                unfold country_stage at heq3
                rw [chunkedFilter_ok (by decide)] at heq3
                injection heq3 with heq3
                injection h with h
                subst h
                right
                exact heq3.symm
          case isFalse hguard =>
            injection h with h
            subst h
            left
            rfl

/-- C7: in the country stage a record with an empty address list passes the
filter, and a record with a nonempty address list is retained exactly when
its first address's country equals "US". -/
theorem country_stage_retention_rule :
    (∀ r : Record, r.addresses = some [] → passes_country r.addresses = true) ∧
    (∀ (r : Record) (a : Address) (tl : List Address), r.addresses = some (a :: tl) →
      passes_country r.addresses = (a.country == "US")) ∧
    (∀ rows : List Record, rows ≠ [] →
      ∃ kept, country_stage 5000 rows = Except.ok kept ∧
        ∀ r : Record, r ∈ kept ↔ (r ∈ rows ∧ passes_country r.addresses = true)) := by
  refine ⟨?_, ?_, ?_⟩
  · intro r h
    rw [h]
    rfl
  · intro r a tl h
    rw [h]
    rfl
  · intro rows hne
    match rows, hne with
    | b :: bs, _ =>
      refine ⟨(b :: bs).filter (fun r => passes_country r.addresses),
        chunkedFilter_ok (by decide) _ b bs, ?_⟩
      intro r
      exact List.mem_filter

/-- Witness for C7 at concrete inputs: an empty address list passes, a
first address with country "CA" is tested against "US", and the stage on a
one-record input keeps exactly the passing records. -/
theorem country_stage_retention_rule_witness :
    passes_country ({business_name := some "n", confidence := conf095, addresses := some []} : Record).addresses = true ∧
    passes_country ({business_name := some "n", confidence := conf095, addresses := some [{country := "CA"}]} : Record).addresses = (({country := "CA"} : Address).country == "US") ∧
    (∃ kept, country_stage 5000 [({business_name := some "n", confidence := conf095, addresses := some []} : Record)] = Except.ok kept ∧
      ∀ r : Record, r ∈ kept ↔
        (r ∈ [({business_name := some "n", confidence := conf095, addresses := some []} : Record)] ∧
          passes_country r.addresses = true)) :=
  ⟨country_stage_retention_rule.1 _ rfl,
   country_stage_retention_rule.2.1 _ {country := "CA"} [] rfl,
   country_stage_retention_rule.2.2 _ (by decide)⟩

/-- Characterization of a successful `clean_business_names` run: the output
rows are the cleaned input rows with absent or empty names dropped. -/
theorem clean_business_names_ok_rows {df out : DataFrame} :
    clean_business_names df = Except.ok out →
    out.rows = (df.rows.map cleanRecord).filter keepName := by
  intro h
  simp only [clean_business_names] at h
  split at h
  · exact absurd h (by simp)
  · split at h
    case h_1 e heq => exact absurd h (by simp)
    case h_2 rows2 heq =>
      cases hr : df.rows with
      | nil =>
        rw [hr] at heq
        unfold cleaning_stage at heq
        rw [chunkedMap_nil (by decide)] at heq
        exact absurd heq (by simp)
      | cons a as =>
        rw [hr] at heq
        unfold cleaning_stage at heq
        rw [chunkedMap_ok (by decide)] at heq
        injection heq with heq
        subst heq
        injection h with h
        subst h
        rfl

/-- C6: every record in the final output of the full pipeline (filter
followed by cleaning) has confidence at least `CONFIDENCE_THRESHOLD` and a
present, non-empty `business_name`. -/
theorem pipeline_output_confidence_and_name (df df1 df2 : DataFrame)
    (h1 : filter_truck_businesses df = Except.ok df1)
    (h2 : clean_business_names df1 = Except.ok df2) :
    ∀ r ∈ df2.rows, CONFIDENCE_THRESHOLD ≤ r.confidence ∧
      r.business_name ≠ none ∧ r.business_name ≠ some "" := by
  intro r hr
  rw [clean_business_names_ok_rows h2] at hr
  have hmem := (List.mem_filter.mp hr).1
  have hkeep := (List.mem_filter.mp hr).2
  constructor
  · rcases List.mem_map.mp hmem with ⟨r0, hr0, hr0eq⟩
    have hr0conf : confPred r0 = true := by
      rcases filter_truck_businesses_ok_rows h1 with hca | hca
      · rw [hca] at hr0
        exact (List.mem_filter.mp (List.mem_filter.mp hr0).1).2
      · rw [hca] at hr0
        exact (List.mem_filter.mp (List.mem_filter.mp (List.mem_filter.mp hr0).1).1).2
    rw [← hr0eq]
    exact of_decide_eq_true hr0conf
  · unfold keepName at hkeep
    rw [Bool.and_eq_true] at hkeep
    constructor
    · intro hnone
      rw [hnone] at hkeep
      simp at hkeep
    · intro hempty
      rw [hempty] at hkeep
      simp at hkeep

/-- Witness for C6: the concrete record surviving a full pipeline run over
a one-record dataset satisfies the invariant. -/
theorem pipeline_output_confidence_and_name_witness :
    CONFIDENCE_THRESHOLD ≤ ({business_name := some "Abc Trucking", confidence := conf095, addresses := some [{country := "US"}]} : Record).confidence ∧
    ({business_name := some "Abc Trucking", confidence := conf095, addresses := some [{country := "US"}]} : Record).business_name ≠ none ∧
    ({business_name := some "Abc Trucking", confidence := conf095, addresses := some [{country := "US"}]} : Record).business_name ≠ some "" :=
  pipeline_output_confidence_and_name
    ⟨true, true, true, [{business_name := some "ABC Trucking", confidence := conf095, addresses := some [{country := "US"}]}]⟩
    ⟨true, true, true, [{business_name := some "ABC Trucking", confidence := conf095, addresses := some [{country := "US"}]}]⟩
    ⟨true, true, true, [{business_name := some "Abc Trucking", confidence := conf095, addresses := some [{country := "US"}]}]⟩
    (by decide) (by decide) _ (by decide)

/-- C3 counterexample: a record whose `business_name` cell is missing
(non-text) is not a hard error: the pipeline call returns successfully and
the record is silently dropped by the relevance stage (and a missing
`addresses` value passes the country stage silently). -/
theorem missing_name_value_silently_dropped :
    filter_truck_businesses ⟨true, true, true, [{business_name := none, confidence := conf095, addresses := some []}]⟩ =
      Except.ok ⟨true, true, true, []⟩ ∧
    passes_country (none : Option (List Address)) = true :=
  ⟨by decide, rfl⟩

/-- C3 amended: missing-field errors are column-level, not record-level.
If the whole `business_name` column is absent (and the confidence-filtered
dataset is nonempty, so a chunk is processed), the filter stage aborts with
a `KeyError`; but a record-level missing `business_name` value is treated
as not truck-relevant and silently dropped (every surviving record has a
present, relevant name and no error is raised for dropped ones), and a
record-level missing `addresses` value silently passes the country test. -/
theorem missing_field_handling :
    (∀ df : DataFrame, df.hasConfidence = true → df.hasBusinessName = false →
      df.rows.filter confPred ≠ [] →
      filter_truck_businesses df = Except.error "KeyError: business_name") ∧
    (∀ df out : DataFrame, filter_truck_businesses df = Except.ok out →
      ∀ r ∈ out.rows, r.business_name ≠ none ∧ is_truck_relevant r.business_name = true) ∧
    (∀ r : Record, r.addresses = none → passes_country r.addresses = true) := by
  refine ⟨?_, ?_, ?_⟩
  · intro df hconf hbn hne
    simp only [filter_truck_businesses, hconf, hbn, Bool.not_true, Bool.not_false, Bool.and_true]
    rw [if_neg (by simp), if_pos (by simpa [List.isEmpty_iff] using hne)]
  · intro df out h r hr
    rcases filter_truck_businesses_ok_rows h with hca | hca <;> rw [hca] at hr
    · have hrel := (List.mem_filter.mp hr).2
      refine ⟨?_, hrel⟩
      intro hnone
      rw [hnone] at hrel
      simp [is_truck_relevant] at hrel
    · have hrel := (List.mem_filter.mp (List.mem_filter.mp hr).1).2
      refine ⟨?_, hrel⟩
      intro hnone
      rw [hnone] at hrel
      simp [is_truck_relevant] at hrel
  · intro r h
    rw [h]
    rfl

/-- Witness for the amended C3 at concrete inputs: a dataframe without the
`business_name` column raises `KeyError`; a surviving record of a
successful run has a present, relevant name; a `None` addresses value
passes. -/
theorem missing_field_handling_witness :
    filter_truck_businesses ⟨false, true, true, [{business_name := some "x", confidence := conf095, addresses := none}]⟩ =
      Except.error "KeyError: business_name" ∧
    (({business_name := some "ABC Trucking", confidence := conf095, addresses := none} : Record).business_name ≠ none ∧
      is_truck_relevant ({business_name := some "ABC Trucking", confidence := conf095, addresses := none} : Record).business_name = true) ∧
    passes_country ({business_name := some "x", confidence := conf095, addresses := none} : Record).addresses = true :=
  ⟨missing_field_handling.1 _ rfl rfl (by decide),
   missing_field_handling.2.1
     ⟨true, true, false, [{business_name := some "ABC Trucking", confidence := conf095, addresses := none}]⟩
     ⟨true, true, false, [{business_name := some "ABC Trucking", confidence := conf095, addresses := none}]⟩
     (by decide) _ (by decide),
   missing_field_handling.2.2 _ rfl⟩

/-- C10: `clean_name` on the empty string returns the empty string (empty
text, not absent); the absent result arises only for non-text input; and
records with absent or empty names are removed only by the cleaning
pipeline's final drop. -/
theorem clean_name_empty_string_behavior :
    clean_name (some "") = some "" ∧
    clean_name none = none ∧
    (∀ s : String, clean_name (some s) ≠ none) ∧
    (∀ df out : DataFrame, clean_business_names df = Except.ok out →
      ∀ r ∈ out.rows, ¬(r.business_name = none ∨ r.business_name = some "")) := by
  refine ⟨by decide, rfl, ?_, ?_⟩
  · intro s h
    simp [clean_name] at h
  · intro df out h r hr
    rw [clean_business_names_ok_rows h] at hr
    have hkeep := (List.mem_filter.mp hr).2
    unfold keepName at hkeep
    rw [Bool.and_eq_true] at hkeep
    rintro (hn | he)
    · rw [hn] at hkeep
      simp at hkeep
    · rw [he] at hkeep
      simp at hkeep

/-- Witness for C10 at concrete inputs. -/
theorem clean_name_empty_string_behavior_witness :
    clean_name (some "") = some "" ∧
    clean_name (some "Bob Towing") ≠ none ∧
    ¬(({business_name := some "Bob Towing", confidence := conf095, addresses := none} : Record).business_name = none ∨
      ({business_name := some "Bob Towing", confidence := conf095, addresses := none} : Record).business_name = some "") :=
  ⟨clean_name_empty_string_behavior.1,
   clean_name_empty_string_behavior.2.2.1 "Bob Towing",
   clean_name_empty_string_behavior.2.2.2
     ⟨true, true, true, [{business_name := some "Bob Towing", confidence := conf095, addresses := none}]⟩
     ⟨true, true, true, [{business_name := some "Bob Towing", confidence := conf095, addresses := none}]⟩
     (by decide) _ (by decide)⟩

/-- C4 counterexample: on the exact input "Acme Logistics, LLC." the code
does not return "acme logistics": the suffix loop runs before punctuation
removal, so "acme logistics, llc." does not end with " llc" and the suffix
survives (as "llc"). -/
theorem normalize_acme_not_stripped :
    normalize_for_matching (some "Acme Logistics, LLC.") ≠ "acme logistics" := by decide

/-- C4 amended: `normalize_for_matching("Acme Logistics, LLC.")` returns
"acme logistics llc" (the trailing "LLC." is not recognized as a suffix
because suffix stripping precedes punctuation removal). -/
theorem normalize_acme_value :
    normalize_for_matching (some "Acme Logistics, LLC.") = "acme logistics llc" := by decide

/-- C5 counterexample: more than one suffix occurrence can be removed in a
single call: on "a co ltd" the loop strips " ltd" and then " co", giving
"a" rather than the single-strip result "a co". -/
theorem normalize_strips_two_suffixes :
    normalize_for_matching (some "a co ltd") = "a" ∧
    normalize_for_matching (some "a co ltd") ≠ "a co" :=
  ⟨by decide, by decide⟩

/-- Concatenation distributes over list append. -/
theorem concatAll_append (A B : List (List α)) :
    concatAll (A ++ B) = concatAll A ++ concatAll B := by
  induction A with
  | nil => rfl
  | cons l ls ih =>
    show l ++ concatAll (ls ++ B) = (l ++ concatAll ls) ++ concatAll B
    rw [ih, List.append_assoc]

/-- If `endsWithL l s` holds then `l` is its first part followed by `s`. -/
theorem endsWith_decomp {l s : List Char} (h : endsWithL l s = true) :
    l = l.take (l.length - s.length) ++ s := by
  unfold endsWithL at h
  rw [Bool.and_eq_true] at h
  have h2 : l.drop (l.length - s.length) = s := eq_of_beq h.2
  conv_lhs => rw [← List.take_append_drop (l.length - s.length) l]
  rw [h2]

/-- Decomposition of the suffix-stripping loop: the stripped suffixes form
a subsequence of the suffix list (each suffix is stripped at most once, in
list order), and the input is the result followed by the stripped suffixes
in reverse strip order. -/
theorem stripSuffixes_decomp : ∀ (sfx : List (List Char)) (l : List Char),
    ∃ L, List.Sublist L sfx ∧ l = stripSuffixesL sfx l ++ concatAll L.reverse := by
  intro sfx
  induction sfx with
  | nil =>
    intro l
    exact ⟨[], List.Sublist.refl [], by simp [stripSuffixesL, concatAll]⟩
  | cons s rest ih =>
    intro l
    show ∃ L, _ ∧ l = stripSuffixesL rest (stripOne l s) ++ concatAll L.reverse
    by_cases h : endsWithL l s = true
    · obtain ⟨L', hsub, hdec⟩ := ih (l.take (l.length - s.length))
      refine ⟨s :: L', List.Sublist.cons₂ s hsub, ?_⟩
      rw [stripOne, if_pos h]
      rw [show (s :: L').reverse = L'.reverse ++ [s] from by simp]
      rw [concatAll_append]
      calc l = l.take (l.length - s.length) ++ s := endsWith_decomp h
        _ = (stripSuffixesL rest (l.take (l.length - s.length)) ++ concatAll L'.reverse) ++ s := by
              rw [← hdec]
        _ = stripSuffixesL rest (l.take (l.length - s.length)) ++
              (concatAll L'.reverse ++ concatAll [s]) := by
              simp [concatAll, List.append_assoc]
    · obtain ⟨L', hsub, hdec⟩ := ih l
      refine ⟨L', List.Sublist.cons s hsub, ?_⟩
      rw [stripOne, if_neg h]
      exact hdec

/-- C5 amended: the suffix phase of `normalize_for_matching` strips at most
one trailing occurrence of EACH suffix, testing the five suffixes in list
order against the current name, so several different suffixes can be
removed in one call; the removed suffixes always form a subsequence of
`[' llc', ' inc', ' corp', ' ltd', ' co']`. -/
theorem stripSuffixes_at_most_once_each (name : List Char) :
    ∃ L, List.Sublist L SUFFIXES_DATA ∧
      name = stripSuffixesL SUFFIXES_DATA name ++ concatAll L.reverse :=
  stripSuffixes_decomp SUFFIXES_DATA name

/-! ### Lemmas towards `clean_name` idempotence (claim C8) -/

/-- The tail of a mask without adjacent `true`s has no adjacent `true`s. -/
theorem noAdjTrue_tail {b : Bool} {bs : List Bool} (h : noAdjTrue (b :: bs) = true) :
    noAdjTrue bs = true := by
  cases bs with
  | nil => rfl
  | cons b2 bs2 =>
    simp only [noAdjTrue, Bool.and_eq_true] at h
    exact h.2

/-- Every character emitted by the whitespace collapse is a plain space or
a non-whitespace character of the input. -/
theorem mem_collapseWSL {z : List Char} :
    ∀ c ∈ collapseWSL z, c = ' ' ∨ (c ∈ z ∧ isPySpace c = false) := by
  induction z using collapseWSL.induct with
  | case1 =>
    intro c hc
    cases hc
  | case2 c0 h =>
    intro c hc
    simp only [collapseWSL, if_pos h] at hc
    left
    exact List.mem_singleton.mp hc
  | case3 c0 h =>
    intro c hc
    simp only [collapseWSL, if_neg h] at hc
    right
    have hceq := List.mem_singleton.mp hc
    subst hceq
    exact ⟨List.mem_singleton_self _, Bool.not_eq_true _ ▸ (Bool.of_not_eq_true h)⟩
  | case4 c1 c2 cs h ih =>
    intro c hc
    simp only [collapseWSL, if_pos h] at hc
    rcases ih c hc with h' | ⟨hmem, hsp⟩
    · left; exact h'
    · right; exact ⟨List.mem_cons_of_mem _ hmem, hsp⟩
  | case5 c1 c2 cs h ih =>
    intro c hc
    simp only [collapseWSL, if_neg h] at hc
    rcases List.mem_cons.mp hc with h1 | h2
    · by_cases hc1 : isPySpace c1 = true
      · rw [if_pos hc1] at h1
        left; exact h1
      · rw [if_neg hc1] at h1
        subst h1
        right
        exact ⟨List.mem_cons_self _ _, Bool.of_not_eq_true hc1⟩
    · rcases ih c h2 with h' | ⟨hmem, hsp⟩
      · left; exact h'
      · right; exact ⟨List.mem_cons_of_mem _ hmem, hsp⟩

/-- The collapse of a nonempty list starts with the (space-normalized)
image of its first character. -/
theorem collapseWSL_cons_head : ∀ (cs : List Char) (c : Char),
    ∃ t, collapseWSL (c :: cs) = (if isPySpace c then ' ' else c) :: t := by
  intro cs
  induction cs with
  | nil =>
    intro c
    by_cases h : isPySpace c = true
    · exact ⟨[], by simp only [collapseWSL, if_pos h]⟩
    · exact ⟨[], by simp only [collapseWSL, if_neg h]⟩
  | cons c2 cs2 ih =>
    intro c
    by_cases h : (isPySpace c && isPySpace c2) = true
    · obtain ⟨t, ht⟩ := ih c2
      rw [Bool.and_eq_true] at h
      refine ⟨t, ?_⟩
      simp only [collapseWSL]
      rw [if_pos (by rw [h.1, h.2]; rfl), ht, if_pos h.2, if_pos h.1]
    · refine ⟨collapseWSL (c2 :: cs2), ?_⟩
      simp only [collapseWSL]
      rw [if_neg h]

/-- The collapse output never has two adjacent whitespace characters. -/
theorem noAdjTrue_collapseWSL (z : List Char) :
    noAdjTrue ((collapseWSL z).map isPySpace) = true := by
  induction z using collapseWSL.induct with
  | case1 => rfl
  | case2 c0 h =>
    simp only [collapseWSL, if_pos h]
    rfl
  | case3 c0 h =>
    simp only [collapseWSL, if_neg h]
    rfl
  | case4 c1 c2 cs h ih =>
    simp only [collapseWSL, if_pos h]
    exact ih
  | case5 c1 c2 cs h ih =>
    simp only [collapseWSL, if_neg h]
    obtain ⟨t, ht⟩ := collapseWSL_cons_head cs c2
    rw [ht]
    rw [ht] at ih
    simp only [List.map_cons, noAdjTrue, Bool.and_eq_true]
    refine ⟨?_, ih⟩
    by_cases hc1 : isPySpace c1 = true
    · by_cases hc2 : isPySpace c2 = true
      · exact absurd (by rw [hc1, hc2]; rfl) h
      · rw [if_pos hc1, if_neg hc2, Bool.of_not_eq_true hc2]
        decide
    · rw [if_neg hc1, Bool.of_not_eq_true hc1]
      rfl

/-- The whitespace collapse fixes a list whose whitespace characters are
all plain spaces with no two adjacent. -/
theorem collapseWSL_fixed {z : List Char}
    (hsp : ∀ c ∈ z, isPySpace c = true → c = ' ')
    (hadj : noAdjTrue (z.map isPySpace) = true) :
    collapseWSL z = z := by
  induction z using collapseWSL.induct with
  | case1 => rfl
  | case2 c0 h =>
    simp only [collapseWSL, if_pos h]
    rw [hsp c0 (List.mem_singleton_self _) h]
  | case3 c0 h =>
    simp only [collapseWSL, if_neg h]
  | case4 c1 c2 cs h ih =>
    exfalso
    simp only [List.map_cons, noAdjTrue, Bool.and_eq_true] at hadj
    rw [h] at hadj
    exact Bool.false_ne_true hadj.1
  | case5 c1 c2 cs h ih =>
    simp only [collapseWSL, if_neg h]
    have htail : collapseWSL (c2 :: cs) = c2 :: cs := by
      apply ih
      · intro c hc hspc
        exact hsp c (List.mem_cons_of_mem _ hc) hspc
      · simp only [List.map_cons, noAdjTrue, Bool.and_eq_true] at hadj
        simp only [List.map_cons]
        exact hadj.2
    rw [htail]
    by_cases hc1 : isPySpace c1 = true
    · rw [if_pos hc1, hsp c1 (List.mem_cons_self _ _) hc1]
    · rw [if_neg hc1]

/-- Dropping leading whitespace fixes a list that does not start with
whitespace. -/
theorem dropWhile_fixed {z : List Char}
    (h : headNotTrue (z.map isPySpace) = true) :
    z.dropWhile isPySpace = z := by
  cases z with
  | nil => rfl
  | cons c cs =>
    simp only [List.map_cons, headNotTrue, Bool.not_eq_true'] at h
    rw [List.dropWhile_cons, h]
    rfl

/-- Dropping trailing whitespace fixes a list that does not end with
whitespace. -/
theorem dropTrailWS_fixed {z : List Char}
    (h : lastNotTrue (z.map isPySpace) = true) :
    dropTrailWS z = z := by
  induction z with
  | nil => rfl
  | cons c cs ih =>
    cases cs with
    | nil =>
      simp only [List.map_cons, List.map_nil, lastNotTrue, Bool.not_eq_true'] at h
      simp only [dropTrailWS, h]
      rfl
    | cons c2 cs2 =>
      have htail : lastNotTrue ((c2 :: cs2).map isPySpace) = true := h
      have hr := ih htail
      show (match dropTrailWS (c2 :: cs2) with
            | [] => if isPySpace c = true then [] else [c]
            | r => c :: r) = c :: c2 :: cs2
      rw [hr]

/-- Characters surviving the leading-whitespace drop come from the input. -/
theorem mem_dropWhile {z : List Char} :
    ∀ c ∈ z.dropWhile isPySpace, c ∈ z := by
  induction z with
  | nil => intro c hc; cases hc
  | cons a as ih =>
    intro c hc
    rw [List.dropWhile_cons] at hc
    by_cases h : isPySpace a = true
    · rw [if_pos h] at hc
      exact List.mem_cons_of_mem _ (ih c hc)
    · rw [if_neg h] at hc
      exact hc

/-- Characters surviving the trailing-whitespace drop come from the input. -/
theorem mem_dropTrailWS {z : List Char} :
    ∀ c ∈ dropTrailWS z, c ∈ z := by
  induction z with
  | nil => intro c hc; cases hc
  | cons a as ih =>
    intro c hc
    show c ∈ a :: as
    rw [show dropTrailWS (a :: as) = (match dropTrailWS as with
          | [] => if isPySpace a = true then [] else [a]
          | r => a :: r) from rfl] at hc
    rcases hr : dropTrailWS as with _ | ⟨r1, rt⟩
    · rw [hr] at hc
      by_cases h : isPySpace a = true
      · rw [if_pos h] at hc
        cases hc
      · rw [if_neg h] at hc
        rw [List.mem_singleton.mp hc]
        exact List.mem_cons_self _ _
    · rw [hr] at hc
      rcases List.mem_cons.mp hc with h1 | h2
      · rw [h1]
        exact List.mem_cons_self _ _
      · exact List.mem_cons_of_mem _ (ih c (hr ▸ h2))

/-- The trailing-whitespace drop of a cons is empty or keeps the head. -/
theorem dropTrailWS_shape (c : Char) (cs : List Char) :
    dropTrailWS (c :: cs) = [] ∨ ∃ t, dropTrailWS (c :: cs) = c :: t := by
  rw [show dropTrailWS (c :: cs) = (match dropTrailWS cs with
        | [] => if isPySpace c = true then [] else [c]
        | r => c :: r) from rfl]
  rcases hr : dropTrailWS cs with _ | ⟨r1, rt⟩
  · by_cases h : isPySpace c = true
    · left
      rw [if_pos h]
    · right
      exact ⟨[], by rw [if_neg h]⟩
  · right
    exact ⟨r1 :: rt, rfl⟩

/-- The leading-whitespace drop preserves the no-adjacent-space property. -/
theorem noAdjTrue_dropWhile {z : List Char}
    (h : noAdjTrue (z.map isPySpace) = true) :
    noAdjTrue ((z.dropWhile isPySpace).map isPySpace) = true := by
  induction z with
  | nil => rfl
  | cons a as ih =>
    rw [List.dropWhile_cons]
    by_cases ha : isPySpace a = true
    · rw [if_pos ha]
      exact ih (noAdjTrue_tail (List.map_cons isPySpace a as ▸ h))
    · rw [if_neg ha]
      exact h

/-- The trailing-whitespace drop preserves the no-adjacent-space property. -/
theorem noAdjTrue_dropTrailWS {z : List Char}
    (h : noAdjTrue (z.map isPySpace) = true) :
    noAdjTrue ((dropTrailWS z).map isPySpace) = true := by
  induction z with
  | nil => rfl
  | cons a as ih =>
    rw [show dropTrailWS (a :: as) = (match dropTrailWS as with
          | [] => if isPySpace a = true then [] else [a]
          | r => a :: r) from rfl]
    rcases hr : dropTrailWS as with _ | ⟨r1, rt⟩
    · by_cases hsp : isPySpace a = true
      · rw [if_pos hsp]
        rfl
      · rw [if_neg hsp]
        rfl
    · have htail : noAdjTrue ((dropTrailWS as).map isPySpace) = true :=
        ih (noAdjTrue_tail (List.map_cons isPySpace a as ▸ h))
      cases as with
      | nil => cases hr
      | cons a2 as2 =>
        rcases dropTrailWS_shape a2 as2 with hsh | ⟨t, hsh⟩
        · rw [hsh] at hr
          cases hr
        · rw [hsh] at hr htail
          rw [← hr]
          simp only [List.map_cons, noAdjTrue, Bool.and_eq_true] at h htail ⊢
          exact ⟨h.1, htail⟩

/-- The leading-whitespace drop leaves no leading whitespace. -/
theorem headNotTrue_dropWhile (z : List Char) :
    headNotTrue ((z.dropWhile isPySpace).map isPySpace) = true := by
  induction z with
  | nil => rfl
  | cons a as ih =>
    rw [List.dropWhile_cons]
    by_cases ha : isPySpace a = true
    · rw [if_pos ha]
      exact ih
    · rw [if_neg ha]
      simp only [List.map_cons, headNotTrue, Bool.not_eq_true']
      exact Bool.of_not_eq_true ha

/-- The trailing-whitespace drop preserves a whitespace-free head. -/
theorem headNotTrue_dropTrailWS {z : List Char}
    (h : headNotTrue (z.map isPySpace) = true) :
    headNotTrue ((dropTrailWS z).map isPySpace) = true := by
  cases z with
  | nil => rfl
  | cons a as =>
    rcases dropTrailWS_shape a as with hsh | ⟨t, hsh⟩
    · rw [hsh]
      rfl
    · rw [hsh]
      exact h

/-- The trailing-whitespace drop leaves no trailing whitespace. -/
theorem lastNotTrue_dropTrailWS (z : List Char) :
    lastNotTrue ((dropTrailWS z).map isPySpace) = true := by
  induction z with
  | nil => rfl
  | cons a as ih =>
    rw [show dropTrailWS (a :: as) = (match dropTrailWS as with
          | [] => if isPySpace a = true then [] else [a]
          | r => a :: r) from rfl]
    rcases hr : dropTrailWS as with _ | ⟨r1, rt⟩
    · by_cases hsp : isPySpace a = true
      · rw [if_pos hsp]
        rfl
      · rw [if_neg hsp]
        simp only [List.map_cons, List.map_nil, lastNotTrue, Bool.not_eq_true']
        exact Bool.of_not_eq_true hsp
    · rw [hr] at ih
      simp only [List.map_cons]
      show lastNotTrue (isPySpace a :: isPySpace r1 :: rt.map isPySpace) = true
      simp only [lastNotTrue]
      simpa using ih

/-- Quote removal fixes a quote-free list. -/
theorem removeQuotesL_fixed {z : List Char}
    (h : ∀ c ∈ z, isQuoteCh c = false) :
    removeQuotesL z = z :=
  List.filter_eq_self.mpr (fun c hc => by rw [h c hc]; rfl)

/-- Characters surviving quote removal are quote-free members of the input. -/
theorem mem_removeQuotesL {z : List Char} :
    ∀ c ∈ removeQuotesL z, c ∈ z ∧ isQuoteCh c = false := by
  intro c hc
  have h := List.mem_filter.mp hc
  exact ⟨h.1, by simpa using h.2⟩

/-- One title-case pass maps every position to the same character or to a
case-mapped letter. -/
theorem mem_titleAux {z : List Char} :
    ∀ (b : Bool) (c : Char), c ∈ titleAux b z → c ∈ z ∨ isAlphaCh c = true := by
  induction z with
  | nil =>
    intro b c hc
    cases hc
  | cons a as ih =>
    intro b c hc
    by_cases ha : isAlphaCh a = true
    · rw [show titleAux b (a :: as) =
          (if b then charLower a else charUpper a) :: titleAux true as from by
            simp only [titleAux, if_pos ha]] at hc
      rcases List.mem_cons.mp hc with h1 | h2
      · right
        cases b with
        | false =>
          rw [h1]
          show isAlphaCh (charUpper a) = true
          rw [isAlphaCh_charUpper]
          exact ha
        | true =>
          rw [h1]
          show isAlphaCh (charLower a) = true
          rw [isAlphaCh_charLower]
          exact ha
      · rcases ih true c h2 with h' | h'
        · left; exact List.mem_cons_of_mem _ h'
        · right; exact h'
    · rw [show titleAux b (a :: as) = a :: titleAux false as from by
          simp only [titleAux, if_neg ha]] at hc
      rcases List.mem_cons.mp hc with h1 | h2
      · left
        rw [h1]
        exact List.mem_cons_self _ _
      · rcases ih false c h2 with h' | h'
        · left; exact List.mem_cons_of_mem _ h'
        · right; exact h'

/-- One title-case pass does not change the whitespace mask. -/
theorem map_isPySpace_titleAux (z : List Char) :
    ∀ b : Bool, (titleAux b z).map isPySpace = z.map isPySpace := by
  induction z with
  | nil => intro b; rfl
  | cons a as ih =>
    intro b
    by_cases ha : isAlphaCh a = true
    · rw [show titleAux b (a :: as) =
          (if b then charLower a else charUpper a) :: titleAux true as from by
            simp only [titleAux, if_pos ha]]
      simp only [List.map_cons]
      rw [ih true]
      cases b with
      | false =>
        show isPySpace (charUpper a) :: as.map isPySpace = isPySpace a :: as.map isPySpace
        rw [isPySpace_charUpper]
      | true =>
        show isPySpace (charLower a) :: as.map isPySpace = isPySpace a :: as.map isPySpace
        rw [isPySpace_charLower]
    · rw [show titleAux b (a :: as) = a :: titleAux false as from by
          simp only [titleAux, if_neg ha]]
      simp only [List.map_cons]
      rw [ih false]

/-- One title-case pass is idempotent (with matching carry flags). -/
theorem titleAux_titleAux (z : List Char) :
    ∀ b : Bool, titleAux b (titleAux b z) = titleAux b z := by
  induction z with
  | nil => intro b; rfl
  | cons a as ih =>
    intro b
    by_cases ha : isAlphaCh a = true
    · rw [show titleAux b (a :: as) =
          (if b then charLower a else charUpper a) :: titleAux true as from by
            simp only [titleAux, if_pos ha]]
      cases b with
      | false =>
        have hα : isAlphaCh (charUpper a) = true := by
          rw [isAlphaCh_charUpper]; exact ha
        show titleAux false (charUpper a :: titleAux true as) = charUpper a :: titleAux true as
        rw [show titleAux false (charUpper a :: titleAux true as) =
            charUpper (charUpper a) :: titleAux true (titleAux true as) from by
              simp only [titleAux, if_pos hα]; rfl]
        rw [charUpper_charUpper, ih true]
      | true =>
        have hα : isAlphaCh (charLower a) = true := by
          rw [isAlphaCh_charLower]; exact ha
        show titleAux true (charLower a :: titleAux true as) = charLower a :: titleAux true as
        rw [show titleAux true (charLower a :: titleAux true as) =
            charLower (charLower a) :: titleAux true (titleAux true as) from by
              simp only [titleAux, if_pos hα]; rfl]
        rw [charLower_charLower, ih true]
    · rw [show titleAux b (a :: as) = a :: titleAux false as from by
          simp only [titleAux, if_neg ha]]
      rw [show titleAux b (a :: titleAux false as) =
          a :: titleAux false (titleAux false as) from by
            simp only [titleAux, if_neg ha]]
      rw [ih false]

/-- Unfolding of `cleanNameL`. -/
theorem cleanNameL_eq (x : List Char) :
    cleanNameL x =
      if isUpperL (preClean x) = true then preClean x else titleL (preClean x) := rfl

/-- The pre-cleaning pass establishes the cleaned normal form. -/
theorem cleanNF_preClean (l : List Char) : cleanNF (preClean l) = true := by
  simp only [cleanNF, Bool.and_eq_true]
  refine ⟨⟨⟨?_, ?_⟩, ?_⟩, ?_⟩
  · apply List.all_eq_true.mpr
    intro c hc
    have hc1 := mem_dropWhile c (mem_dropTrailWS c hc)
    rcases mem_collapseWSL c hc1 with hsp | ⟨hmem, hnsp⟩
    · rw [hsp]
      decide
    · have hq := (mem_removeQuotesL c hmem).2
      rw [hq, hnsp]
      rfl
  · exact noAdjTrue_dropTrailWS (noAdjTrue_dropWhile (noAdjTrue_collapseWSL _))
  · exact headNotTrue_dropTrailWS (headNotTrue_dropWhile _)
  · exact lastNotTrue_dropTrailWS _

/-- The pre-cleaning pass fixes a list in the cleaned normal form. -/
theorem preClean_fixed {z : List Char} (h : cleanNF z = true) : preClean z = z := by
  simp only [cleanNF, Bool.and_eq_true] at h
  obtain ⟨⟨⟨hall, hadj⟩, hhead⟩, hlast⟩ := h
  have hall := List.all_eq_true.mp hall
  have hq : ∀ c ∈ z, isQuoteCh c = false := by
    intro c hc
    have := hall c hc
    rw [Bool.and_eq_true] at this
    simpa using this.1
  have hsp : ∀ c ∈ z, isPySpace c = true → c = ' ' := by
    intro c hc hspc
    have := hall c hc
    rw [Bool.and_eq_true, Bool.or_eq_true] at this
    rcases this.2 with h1 | h2
    · rw [hspc] at h1
      exact absurd h1 (by decide)
    · exact eq_of_beq h2
  unfold preClean stripL
  rw [removeQuotesL_fixed hq, collapseWSL_fixed hsp hadj, dropWhile_fixed hhead,
    dropTrailWS_fixed hlast]

/-- Title-casing preserves the cleaned normal form. -/
theorem cleanNF_titleL {z : List Char} (h : cleanNF z = true) :
    cleanNF (titleL z) = true := by
  simp only [cleanNF, Bool.and_eq_true] at h ⊢
  obtain ⟨⟨⟨hall, hadj⟩, hhead⟩, hlast⟩ := h
  have hall := List.all_eq_true.mp hall
  refine ⟨⟨⟨?_, ?_⟩, ?_⟩, ?_⟩
  · apply List.all_eq_true.mpr
    intro c hc
    rcases mem_titleAux false c hc with hmem | hα
    · exact hall c hmem
    · rw [isQuoteCh_false_of_alpha hα, isPySpace_false_of_alpha hα]
      rfl
  · rw [show titleL z = titleAux false z from rfl, map_isPySpace_titleAux z false]
    exact hadj
  · rw [show titleL z = titleAux false z from rfl, map_isPySpace_titleAux z false]
    exact hhead
  · rw [show titleL z = titleAux false z from rfl, map_isPySpace_titleAux z false]
    exact hlast

/-- Core of C8: the string body of `clean_name` is idempotent whenever its
first result is not all-uppercase. -/
theorem cleanNameL_idem {l : List Char} (h : isUpperL (cleanNameL l) = false) :
    cleanNameL (cleanNameL l) = cleanNameL l := by
  have hNF : cleanNF (preClean l) = true := cleanNF_preClean l
  by_cases hu : isUpperL (preClean l) = true
  · have hcl : cleanNameL l = preClean l := by
      rw [cleanNameL_eq, if_pos hu]
    rw [hcl] at h
    rw [h] at hu
    cases hu
  · have hcl : cleanNameL l = titleL (preClean l) := by
      rw [cleanNameL_eq, if_neg hu]
    rw [hcl] at h ⊢
    have hNF2 : cleanNF (titleL (preClean l)) = true := cleanNF_titleL hNF
    rw [cleanNameL_eq, preClean_fixed hNF2,
      if_neg (by rw [h]; exact Bool.false_ne_true)]
    exact titleAux_titleAux (preClean l) false

/-- C8: `clean_name` is idempotent on every text whose cleaned form is not
all-uppercase: `clean_name(clean_name(x)) = clean_name(x)`. -/
theorem clean_name_idempotent_on_non_upper (x : String)
    (h : isUpperL (cleanNameL x.data) = false) :
    clean_name (clean_name (some x)) = clean_name (some x) := by
  show some (String.mk (cleanNameL (cleanNameL x.data))) = some (String.mk (cleanNameL x.data))
  rw [cleanNameL_idem h]

/-- Witness for C8 at the concrete input "bob towing", whose cleaned
form "Bob Towing" is not all-uppercase. -/
theorem clean_name_idempotent_on_non_upper_witness :
    isUpperL (cleanNameL (String.data "bob towing")) = false ∧
    clean_name (clean_name (some "bob towing")) = clean_name (some "bob towing") :=
  ⟨by decide, clean_name_idempotent_on_non_upper "bob towing" (by decide)⟩
